import Mathlib

/-!
Shallow embedding of the 1pd-poc round/LBP/bonding-curve engine
(`packages/foundry/contracts`).  Solidity `uint256` values are modelled as
`Nat`; Solidity 0.8 checked arithmetic reverts on subtraction underflow, so
every subtraction in the model is guarded and fallible functions return
`Option`.  Division in Solidity reverts on a zero divisor; in the model the
relevant divisors are positive in every context the theorems consider.
All scaled quantities use the contracts' 1e18 fixed-point convention.
-/

def PRECISION : Nat := 10 ^ 18

/-! ## LinearBondingCurve.sol -/

/-- State of one `LinearBondingCurve` contract: the linear-curve parameters,
the ERC20 supply and balances of the BCT token, the contract's native ETH
balance (`address(this).balance`) and the `liquidationBonusPool` accumulator. -/
structure CurveState where
  basePrice : Nat
  slope : Nat
  totalSupply : Nat
  balances : Nat → Nat
  ethBalance : Nat
  liquidationBonusPool : Nat

namespace LinearBondingCurve

/-- `getCurrentPrice`: `basePrice + slope * totalSupply / PRECISION`. -/
def getCurrentPrice (c : CurveState) : Nat :=
  c.basePrice + c.slope * c.totalSupply / PRECISION

/-- The Babylonian-iteration loop of `sqrt` (the `while (z < y)` loop). -/
def sqrtGo (x z y : Nat) : Nat :=
  if h : z < y then sqrtGo x ((x / z + z) / 2) z else y
termination_by y
decreasing_by exact h

/-- `sqrt` from `LinearBondingCurve.sol`. -/
def sqrt (x : Nat) : Nat :=
  if x = 0 then 0 else sqrtGo x ((x + 1) / 2) x

/-- `calculateBctAmount`: how many BCT to mint for `ethAmount` of funding. -/
def calculateBctAmount (c : CurveState) (ethAmount : Nat) : Nat :=
  if ethAmount = 0 then 0
  else
    let a := c.slope / 2
    let b := c.basePrice + c.slope * c.totalSupply / PRECISION
    if a = 0 ∨ a * c.totalSupply < b * PRECISION then
      ethAmount * PRECISION / b
    else
      let discriminant := b * b + 4 * a * ethAmount / PRECISION
      let sqrtDiscriminant := sqrt (discriminant * PRECISION)
      (sqrtDiscriminant - b * PRECISION) * PRECISION / (2 * a)

/-- `calculateEthAmount`: funding returned for burning `bctAmount` tokens;
`none` models the `require(bctAmount <= currentSupply)` revert. -/
def calculateEthAmount (c : CurveState) (bctAmount : Nat) : Option Nat :=
  if bctAmount = 0 then some 0
  else if bctAmount ≤ c.totalSupply then
    let priceStart := c.basePrice + c.slope * c.totalSupply / PRECISION
    let priceEnd := c.basePrice + c.slope * (c.totalSupply - bctAmount) / PRECISION
    some (bctAmount * ((priceStart + priceEnd) / 2) / PRECISION)
  else none

/-- ERC20 `_mint` as used by the curve (no holder tracking on BCT). -/
def mintTo (c : CurveState) (recipient amount : Nat) : CurveState :=
  { c with
    totalSupply := c.totalSupply + amount
    balances := fun a => if a = recipient then c.balances a + amount else c.balances a }

/-- `mintBctFor recipient ethAmount`; the caller sends `ethAmount` of native
funding with the call, so the contract balance grows by it. -/
def mintBctFor (c : CurveState) (recipient ethAmount : Nat) :
    Option (CurveState × Nat) :=
  if ethAmount = 0 then none
  else
    let bctAmount := calculateBctAmount c ethAmount
    if bctAmount = 0 then none
    else some ({ mintTo c recipient bctAmount with
                   ethBalance := c.ethBalance + ethAmount }, bctAmount)

/-- `burnBct`: burn `bctAmount` from `caller` and pay funding out. -/
def burnBct (c : CurveState) (caller bctAmount : Nat) :
    Option (CurveState × Nat) :=
  if bctAmount = 0 then none
  else if c.balances caller < bctAmount then none
  else
    match calculateEthAmount c bctAmount with
    | none => none
    | some ethAmount =>
      if ethAmount = 0 then none
      else if ethAmount ≤ c.ethBalance then
        some ({ c with
                  totalSupply := c.totalSupply - bctAmount
                  balances := fun a =>
                    if a = caller then c.balances a - bctAmount else c.balances a
                  ethBalance := c.ethBalance - ethAmount }, ethAmount)
      else none

/-- `depositEth`: funding sent with the call joins the bonus pool. -/
def depositEth (c : CurveState) (amount : Nat) : Option CurveState :=
  if amount = 0 then none
  else some { c with
                liquidationBonusPool := c.liquidationBonusPool + amount
                ethBalance := c.ethBalance + amount }

/-- The mint loop of `distributeToWinners`. -/
def distributeLoop (totalBct : Nat) (c : CurveState) :
    List (Nat × Nat) → CurveState
  | [] => c
  | (w, s) :: rest => distributeLoop totalBct (mintTo c w (totalBct * s / 10000)) rest

/-- `distributeToWinners winners shares`. -/
def distributeToWinners (c : CurveState) (winners shares : List Nat) :
    Option (CurveState × Nat) :=
  if winners.length = shares.length ∧ winners ≠ [] ∧ c.liquidationBonusPool ≠ 0 then
    let totalBct := calculateBctAmount c c.liquidationBonusPool
    let c1 := distributeLoop totalBct c (winners.zip shares)
    some ({ c1 with liquidationBonusPool := 0 }, totalBct)
  else none

end LinearBondingCurve

/-! ## PositionToken.sol -/

/-- ERC20 state of one `PositionToken` together with its holder registry
(`holders` array; the `isHolder` mapping is kept in sync with membership in
`holders` by the contract, so it is modelled as list membership). -/
structure TokenState where
  balances : Nat → Nat
  holders : List Nat
  totalSupply : Nat

namespace PositionToken

/-- OpenZeppelin ERC20 `_update`: address `0` stands for the zero address,
so `from = 0` is a mint and `to = 0` is a burn; transferring more than the
sender's balance reverts (`none`). -/
def erc20Update (t : TokenState) (f toA v : Nat) : Option TokenState :=
  let step1 : Option TokenState :=
    if f = 0 then some { t with totalSupply := t.totalSupply + v }
    else if v ≤ t.balances f then
      some { t with balances := fun a => if a = f then t.balances a - v else t.balances a }
    else none
  match step1 with
  | none => none
  | some t1 =>
    if toA = 0 then some { t1 with totalSupply := t1.totalSupply - v }
    else some { t1 with balances := fun a => if a = toA then t1.balances a + v else t1.balances a }

/-- `PositionToken._update` override: the ERC20 update followed by the
holder-tracking rule.  Note the guard skips only the very first mint (the
one performed while `holders` is still empty). -/
def update (t : TokenState) (f toA v : Nat) : Option TokenState :=
  match erc20Update t f toA v with
  | none => none
  | some t1 =>
    if toA ≠ 0 ∧ toA ∉ t.holders ∧ 0 < v ∧ ¬(f = 0 ∧ t.holders = []) then
      some { t1 with holders := t1.holders ++ [toA] }
    else some t1

end PositionToken

/-! ## LBP.sol -/

/-- State of one `LBP` pool, with its paired `PositionToken` inlined. -/
structure LBPState where
  addr : Nat
  orchestrator : Nat
  swapFee : Nat
  positionTokenAmount : Nat
  ethAmount : Nat
  initialPrice : Nat
  liquidationPrice : Nat
  settled : Bool
  liquidated : Bool
  token : TokenState

namespace LBP

def START_WEIGHT : Nat := 9091

def DECAY_TIMESCALE : Nat := 9600

/-- `getCurrentWeights`, as a function of `elapsed = block.timestamp - startTime`. -/
def getCurrentWeights (elapsed : Nat) : Nat × Nat :=
  let weightToken0 :=
    if elapsed = 0 then START_WEIGHT
    else
      let numerator := START_WEIGHT * DECAY_TIMESCALE
      let denom := DECAY_TIMESCALE + elapsed
      if denom = 0 then 1
      else if numerator / denom = 0 then 1 else numerator / denom
  let weightToken := if 10000 < weightToken0 then 10000 else weightToken0
  (weightToken, 10000 - weightToken)

/-- `_calculatePrice`. -/
def calculatePrice (reserveETH reserveToken weightToken weightEth : Nat) : Nat :=
  (reserveETH * PRECISION / reserveToken) * weightToken / weightEth

/-- `getCurrentPrice`, as a function of the pool state and elapsed time. -/
def getCurrentPrice (p : LBPState) (elapsed : Nat) : Nat :=
  if p.positionTokenAmount = 0 then 0
  else
    let w := getCurrentWeights elapsed
    calculatePrice p.ethAmount p.positionTokenAmount w.1 w.2

/-- `_calculateSwapAmount`: the linear weighted-constant-product approximation. -/
def calculateSwapAmount (reserveIn reserveOut weightIn weightOut amountIn : Nat) : Nat :=
  let newReserveIn := reserveIn + amountIn
  let ratio := reserveIn * PRECISION / newReserveIn
  let weightRatio := weightIn * PRECISION / weightOut
  let adjustedRatio := ratio * weightRatio / PRECISION
  if PRECISION ≤ adjustedRatio then 0
  else reserveOut * (PRECISION - adjustedRatio) / PRECISION

/-- `swap(amountIn, buyToken)`.  `msgValue` is the native funding sent with
the call (used as the input amount when buying); on a sell the reported
output is the BCT amount minted by the bonding curve, not the funding amount
taken out of the reserve. -/
def swap (p : LBPState) (c : CurveState) (caller msgValue amountIn : Nat)
    (buyToken : Bool) (elapsed : Nat) : Option (LBPState × CurveState × Nat) :=
  if p.settled then none
  else if p.liquidated then none
  else if ¬(0 < p.positionTokenAmount ∧ 0 < p.ethAmount) then none
  else
    let w := getCurrentWeights elapsed
    if buyToken then
      if msgValue = 0 then none
      else
        let amountIn := msgValue
        let feeAmount := amountIn * p.swapFee / 10000
        let amountInAfterFee := amountIn - feeAmount
        let amountOut := calculateSwapAmount p.ethAmount p.positionTokenAmount
          w.2 w.1 amountInAfterFee
        if amountOut ≤ p.positionTokenAmount then
          match PositionToken.update p.token p.addr caller amountOut with
          | none => none
          | some tok =>
            some ({ p with
                      ethAmount := p.ethAmount + amountIn
                      positionTokenAmount := p.positionTokenAmount - amountOut
                      token := tok }, c, amountOut)
        else none
    else
      if amountIn = 0 then none
      else
        let feeAmount := amountIn * p.swapFee / 10000
        let amountInAfterFee := amountIn - feeAmount
        let amountOut := calculateSwapAmount p.positionTokenAmount p.ethAmount
          w.1 w.2 amountInAfterFee
        if amountOut = 0 then none
        else if amountOut ≤ p.ethAmount then
          match PositionToken.update p.token caller p.addr amountIn with
          | none => none
          | some tok =>
            match LinearBondingCurve.mintBctFor c caller amountOut with
            | none => none
            | some (c1, bctAmount) =>
              some ({ p with
                        positionTokenAmount := p.positionTokenAmount + amountIn
                        ethAmount := p.ethAmount - amountOut
                        token := tok }, c1, bctAmount)
        else none

/-- The two holder passes of `settleWinner` (count then fill) compute the
holders other than the pool itself with a positive balance, in enumeration
order, together with their floored basis-point shares. -/
def settleWinnerWinners (p : LBPState) : List Nat :=
  p.token.holders.filter (fun h => decide (h ≠ p.addr) && decide (0 < p.token.balances h))

/-- `settleWinner()`: returns the updated pool, the updated curve, the
winner list, the share list and the funding sent to the bonus pool.  The
`shares[winnerCount - 1] += 10000 - totalShares` statement reverts on
underflow when the raw shares sum beyond 10000, hence the gate. -/
def settleWinner (p : LBPState) (c : CurveState) (caller : Nat) :
    Option (LBPState × CurveState × List Nat × List Nat × Nat) :=
  if caller ≠ p.orchestrator then none
  else if p.settled then none
  else if p.liquidated then none
  else if ¬(p.positionTokenAmount < p.token.totalSupply) then none
  else
    let ownedSupply := p.token.totalSupply - p.positionTokenAmount
    let winners := settleWinnerWinners p
    if winners.length = 0 then none
    else
      let shares := winners.map (fun h => p.token.balances h * 10000 / ownedSupply)
      let totalShares := shares.sum
      if 10000 < totalShares then none
      else
        let shares1 :=
          if totalShares ≠ 10000 then
            shares.set (shares.length - 1) (shares.getD (shares.length - 1) 0 + (10000 - totalShares))
          else shares
        match LinearBondingCurve.depositEth c p.ethAmount with
        | none => none
        | some c1 =>
          some ({ p with settled := true, ethAmount := 0 }, c1, winners, shares1, p.ethAmount)

/-- `liquidatePool()`: permissionless price-conditioned liquidation. -/
def liquidatePool (p : LBPState) (c : CurveState) (elapsed : Nat) :
    Option (LBPState × CurveState) :=
  if p.liquidated then none
  else if p.settled then none
  else if ¬(0 < p.positionTokenAmount ∧ 0 < p.ethAmount) then none
  else if p.liquidationPrice < getCurrentPrice p elapsed then none
  else
    match LinearBondingCurve.depositEth c p.ethAmount with
    | none => none
    | some c1 => some ({ p with liquidated := true, ethAmount := 0 }, c1)

/-- Modelled from the spec: `forceLiquidate()` is invoked by
`RoundOrchestrator._settleRound` on every non-winning, non-liquidated pool
but is absent from the sources; per the spec it is the Orchestrator-only
variant of `liquidate()` with the same effect and without the
price-threshold precondition: it deposits the entire funding reserve into
the reward curve's bonus pool, zeroes the reserve and marks the pool
Liquidated. -/
def forceLiquidate (p : LBPState) (c : CurveState) :
    Option (LBPState × CurveState) :=
  if p.liquidated then none
  else if p.settled then none
  else
    match LinearBondingCurve.depositEth c p.ethAmount with
    | none => none
    | some c1 => some ({ p with liquidated := true, ethAmount := 0 }, c1)

/-- `emergencyExit()`: orchestrator-only extraction of the funding reserve
to the orchestrator (the returned `Nat` is the amount transferred; the
bonding curve is passed through untouched — no bonus deposit happens).
In the source the reserve is only overwritten when it is positive, which
is extensionally the same as always writing zero. -/
def emergencyExit (p : LBPState) (c : CurveState) (caller : Nat) :
    Option (LBPState × CurveState × Nat) :=
  if caller ≠ p.orchestrator then none
  else if p.settled then none
  else if p.liquidated then none
  else some ({ p with settled := true, ethAmount := 0 }, c, p.ethAmount)

end LBP

/-! ## RoundOrchestrator.sol -/

/-- One `Round` of the orchestrator.  The source stores pool addresses and
keeps each pool's state in its own contract; the model inlines the pool
states into the round's list. -/
structure Round where
  startTime : Nat
  duration : Nat
  endTime : Nat
  lbps : List LBPState
  winnerLbp : Nat
  settled : Bool
  bondingCurve : CurveState

namespace RoundOrchestrator

def MIN_POSITION_ETH : Nat := 10 ^ 14

def MAX_POSITION_ETH : Nat := 100 * 10 ^ 18

/-- `SWAP_FEE_PERCENTAGE / 1e13`, the fee in basis points passed to each LBP. -/
def SWAP_FEE_BPS : Nat := 5 * 10 ^ 15 / 10 ^ 13

/-- `getOwnedSupply`: zero for a liquidated pool, else total supply minus
the pool-held amount (the subtraction reverts on underflow). -/
def getOwnedSupply (p : LBPState) : Option Nat :=
  if p.addr = 0 then none
  else if p.liquidated then some 0
  else if p.positionTokenAmount ≤ p.token.totalSupply then
    some (p.token.totalSupply - p.positionTokenAmount)
  else none

/-- The winner-selection loop of `_settleRound`: strictly higher owned
supply replaces the running winner, so the first pool attaining the
maximum wins; `0` is the null address used when no pool has positive
owned supply. -/
def selectWinner : List LBPState → Nat × Nat → Option (Nat × Nat)
  | [], acc => some acc
  | p :: rest, acc =>
    match getOwnedSupply p with
    | none => none
    | some owned =>
      if acc.1 < owned then selectWinner rest (owned, p.addr)
      else selectWinner rest acc

/-- One iteration of the settlement loop of `_settleRound`. -/
def settleStep (orchAddr winnerAddr : Nat) (p : LBPState) (c : CurveState) :
    Option (LBPState × CurveState) :=
  if p.addr = winnerAddr then
    match LBP.settleWinner p c orchAddr with
    | none => none
    | some (p1, c1, winners, shares, _ethSent) =>
      if winners.length ≠ 0 then
        match LinearBondingCurve.distributeToWinners c1 winners shares with
        | none => none
        | some (c2, _totalBct) => some (p1, c2)
      else some (p1, c1)
  else if ¬p.liquidated then LBP.forceLiquidate p c
  else some (p, c)

/-- The settlement loop of `_settleRound`, processing pools in creation
order and threading the round's bonding curve through. -/
def settleLoop (orchAddr winnerAddr : Nat) :
    List LBPState → CurveState → Option (List LBPState × CurveState)
  | [], c => some ([], c)
  | p :: rest, c =>
    match settleStep orchAddr winnerAddr p c with
    | none => none
    | some (p1, c1) =>
      match settleLoop orchAddr winnerAddr rest c1 with
      | none => none
      | some (ps, c2) => some (p1 :: ps, c2)

/-- `_settleRound`. -/
def settleRoundInternal (r : Round) (orchAddr : Nat) : Option Round :=
  match selectWinner r.lbps (0, 0) with
  | none => none
  | some (_highest, winnerAddr) =>
    match settleLoop orchAddr winnerAddr r.lbps r.bondingCurve with
    | none => none
    | some (pools1, curve1) =>
      some { r with
               lbps := pools1
               bondingCurve := curve1
               winnerLbp := winnerAddr
               settled := true }

/-- `settleRoundEarly()` (owner-only; the caller check is outside the model). -/
def settleRoundEarly (r : Round) (orchAddr : Nat) : Option Round :=
  if r.settled then none else settleRoundInternal r orchAddr

/-- `settleRound()`. -/
def settleRound (r : Round) (now orchAddr : Nat) : Option Round :=
  if now < r.endTime then none
  else if r.settled then none
  else settleRoundInternal r orchAddr

/-- `createPosition`: deploys a fresh `PositionToken` (minting `tokenAmount`
to the orchestrator) and a fresh `LBP` at `poolAddr` (whose constructor
pulls the tokens from the orchestrator), then appends the pool to the
current round.  Only the funding range, a positive token amount and the
round's end time are checked — the round's `settled` flag is not. -/
def createPosition (r : Round) (orchAddr poolAddr now msgValue tokenAmount : Nat) :
    Option Round :=
  if ¬(MIN_POSITION_ETH ≤ msgValue ∧ msgValue ≤ MAX_POSITION_ETH) then none
  else if tokenAmount = 0 then none
  else if ¬(now < r.endTime) then none
  else
    let t0 : TokenState := { balances := fun _ => 0, holders := [], totalSupply := 0 }
    match PositionToken.update t0 0 orchAddr tokenAmount with
    | none => none
    | some t1 =>
      match PositionToken.update t1 orchAddr poolAddr tokenAmount with
      | none => none
      | some t2 =>
        let initialPrice := LBP.calculatePrice msgValue tokenAmount
          LBP.START_WEIGHT (10000 - LBP.START_WEIGHT)
        let p : LBPState :=
          { addr := poolAddr
            orchestrator := orchAddr
            swapFee := SWAP_FEE_BPS
            positionTokenAmount := tokenAmount
            ethAmount := msgValue
            initialPrice := initialPrice
            liquidationPrice := initialPrice / 10
            settled := false
            liquidated := false
            token := t2 }
        some { r with lbps := r.lbps ++ [p] }

end RoundOrchestrator


/-! ## Concrete fixtures used by witnesses and counterexamples -/

/-- The concrete curve state of the C1 failing input: `basePrice = 1`,
`slope = 2e18`, zero supply. -/
def c1bad : CurveState :=
  { basePrice := 1
    slope := 2 * 10 ^ 18
    totalSupply := 0
    balances := fun _ => 0
    ethBalance := 0
    liquidationBonusPool := 0 }

/-- Transcribed from the spec sentence for comparison with the code: the
funding cost of minting `m` units is
`m * (basePrice + slope * (supply + m / 2) / 1e18) / 1e18`, the discrete
integral of the linear price curve (the claim states the minted amount
solves `fundingIn = cost(mintedAmount)` up to rounding). -/
def specMintCost (bp sl sup m : Nat) : Nat :=
  m * (bp + sl * (sup + m / 2) / PRECISION) / PRECISION

/-- A fresh bonding curve with the deployment parameters of
`RoundOrchestrator` (`basePrice = 1e15`, `slope = 1e12`). -/
def curve0 : CurveState :=
  { basePrice := 10 ^ 15
    slope := 10 ^ 12
    totalSupply := 0
    balances := fun _ => 0
    ethBalance := 0
    liquidationBonusPool := 0 }

/-- A live pool one day into its round: 10000e18 position tokens and 1e18
funding, 1% fee, all tokens still inside the pool. -/
def pX : LBPState :=
  { addr := 1
    orchestrator := 9
    swapFee := 100
    positionTokenAmount := 10000 * 10 ^ 18
    ethAmount := 10 ^ 18
    initialPrice := 0
    liquidationPrice := 0
    settled := false
    liquidated := false
    token :=
      { balances := fun a => if a = 1 then 10000 * 10 ^ 18 else 0
        holders := [1]
        totalSupply := 10000 * 10 ^ 18 } }

/-- A pool where trader 3 holds 2000e18 of the 10000e18 supply. -/
def pY : LBPState :=
  { addr := 1
    orchestrator := 9
    swapFee := 100
    positionTokenAmount := 8000 * 10 ^ 18
    ethAmount := 2 * 10 ^ 18
    initialPrice := 0
    liquidationPrice := 0
    settled := false
    liquidated := false
    token :=
      { balances := fun a =>
          if a = 1 then 8000 * 10 ^ 18 else if a = 3 then 2000 * 10 ^ 18 else 0
        holders := [1, 3]
        totalSupply := 10000 * 10 ^ 18 } }

/-- A settleable pool: owned supply 40 of 100, holder 5 owns all of it. -/
def pA : LBPState :=
  { addr := 1
    orchestrator := 9
    swapFee := 100
    positionTokenAmount := 60
    ethAmount := 10 ^ 18
    initialPrice := 0
    liquidationPrice := 0
    settled := false
    liquidated := false
    token :=
      { balances := fun a => if a = 1 then 60 else if a = 5 then 40 else 0
        holders := [1, 5]
        totalSupply := 100 } }

/-- A pool with zero owned supply, destined to be force-liquidated. -/
def pB : LBPState :=
  { addr := 2
    orchestrator := 9
    swapFee := 100
    positionTokenAmount := 50
    ethAmount := 7
    initialPrice := 0
    liquidationPrice := 0
    settled := false
    liquidated := false
    token :=
      { balances := fun a => if a = 2 then 50 else 0
        holders := [2]
        totalSupply := 50 } }

/-- A pool with two external holders (balances 3 and 4, owned supply 7),
so the floored shares 4285 and 5714 leave a remainder for the last one. -/
def pC3 : LBPState :=
  { addr := 1
    orchestrator := 9
    swapFee := 100
    positionTokenAmount := 3
    ethAmount := 10 ^ 18
    initialPrice := 0
    liquidationPrice := 0
    settled := false
    liquidated := false
    token :=
      { balances := fun a =>
          if a = 5 then 3 else if a = 6 then 4 else if a = 1 then 3 else 0
        holders := [1, 5, 6]
        totalSupply := 10 } }

/-- A round holding `pA` and `pB`, still open. -/
def rAB : Round :=
  { startTime := 0
    duration := 600
    endTime := 600
    lbps := [pA, pB]
    winnerLbp := 0
    settled := false
    bondingCurve := curve0 }

/-- The settled result of `rAB` used by the C2 witness. -/
def rABresult : Round := (RoundOrchestrator.settleRoundEarly rAB 9).getD rAB

/-- `rAB` with the settled flag already raised (as after `settleRoundEarly`). -/
def rABsettled : Round := { rAB with settled := true }

/-- C5 counterexample trace: mint 1000e18 BCT for 1e18 funding, deposit a
1e18 bonus, then burn everything back.  Returns the minted amount, the
pre-burn contract balance and bonus pool, and the burn payout. -/
def c5trace : Option (Nat × Nat × Nat × Nat) :=
  match LinearBondingCurve.mintBctFor curve0 5 (10 ^ 18) with
  | none => none
  | some (c1, minted) =>
    match LinearBondingCurve.depositEth c1 (10 ^ 18) with
    | none => none
    | some c2 =>
      match LinearBondingCurve.burnBct c2 5 (10 ^ 21) with
      | none => none
      | some (_c3, fundingOut) =>
        some (minted, c2.ethBalance, c2.liquidationBonusPool, fundingOut)

/-- A curve state from which a concrete burn succeeds (for the C5 witness). -/
def cW : CurveState :=
  { basePrice := 10 ^ 15
    slope := 0
    totalSupply := 10 ^ 21
    balances := fun a => if a = 5 then 10 ^ 21 else 0
    ethBalance := 10 ^ 18
    liquidationBonusPool := 0 }

/-- The result of the C5 witness burn. -/
def cWresult : CurveState × Nat :=
  (LinearBondingCurve.burnBct cW 5 (10 ^ 21)).getD (cW, 0)

/-- C8 counterexample trace: the position-token creation sequence — mint the
full supply to the orchestrator (address 2), then transfer it into the pool
(address 1).  Returns the holder lists after both steps and the
orchestrator's balance after the mint. -/
def c8trace : Option (List Nat × List Nat × Nat) :=
  match PositionToken.update
      { balances := fun _ => 0, holders := [], totalSupply := 0 } 0 2 100 with
  | none => none
  | some t1 =>
    match PositionToken.update t1 2 1 100 with
    | none => none
    | some t2 => some (t2.holders, t1.holders, t1.balances 2)

/-- A token state for the C8 witness: address 2 funded, list holds 7. -/
def tW : TokenState :=
  { balances := fun a => if a = 2 then 100 else 0
    holders := [7]
    totalSupply := 100 }

/-- The C8 witness transfer result. -/
def tWresult : TokenState := (PositionToken.update tW 2 3 40).getD tW

/-- The C7 witness buy swap result. -/
def c7buyResult : LBPState × CurveState × Nat :=
  (LBP.swap pX curve0 3 (10 ^ 18) 0 true 0).getD (pX, curve0, 0)

/-- The C7 witness sell swap result. -/
def c7sellResult : LBPState × CurveState × Nat :=
  (LBP.swap pY curve0 3 0 (1000 * 10 ^ 18) false 43200).getD (pY, curve0, 0)

/-- The C3 witness settlement result. -/
def c3result : LBPState × CurveState × List Nat × List Nat × Nat :=
  (LBP.settleWinner pC3 curve0 9).getD (pC3, curve0, [], [], 0)

/-! ## Helper lemmas about the weight schedule -/

theorem getCurrentWeights_fst_le (t : Nat) : (LBP.getCurrentWeights t).1 ≤ 9091 := by
  have h1 : 9091 * 9600 / (9600 + t) ≤ 9091 := by
    calc 9091 * 9600 / (9600 + t) ≤ 9091 * 9600 / 9600 :=
          Nat.div_le_div_left (by omega) (by norm_num)
      _ = 9091 := by norm_num
  simp only [LBP.getCurrentWeights, LBP.START_WEIGHT, LBP.DECAY_TIMESCALE]
  generalize hq : 9091 * 9600 / (9600 + t) = q
  rw [hq] at h1
  split_ifs <;> omega

theorem getCurrentWeights_bounds (t : Nat) :
    (LBP.getCurrentWeights t).1 + (LBP.getCurrentWeights t).2 = 10000
    ∧ 1 ≤ (LBP.getCurrentWeights t).1 ∧ (LBP.getCurrentWeights t).1 ≤ 10000 := by
  simp only [LBP.getCurrentWeights, LBP.START_WEIGHT, LBP.DECAY_TIMESCALE]
  generalize hq : 9091 * 9600 / (9600 + t) = q
  split_ifs <;> omega

theorem getCurrentWeights_antitone {t1 t2 : Nat} (h : t1 ≤ t2) :
    (LBP.getCurrentWeights t2).1 ≤ (LBP.getCurrentWeights t1).1 := by
  rcases Nat.eq_zero_or_pos t1 with h1 | h1
  · subst h1
    have h0 : (LBP.getCurrentWeights 0).1 = 9091 := rfl
    rw [h0]
    exact getCurrentWeights_fst_le t2
  · have h2 : 0 < t2 := lt_of_lt_of_le h1 h
    have hdiv : 9091 * 9600 / (9600 + t2) ≤ 9091 * 9600 / (9600 + t1) :=
      Nat.div_le_div_left (by omega) (by omega)
    simp only [LBP.getCurrentWeights, LBP.START_WEIGHT, LBP.DECAY_TIMESCALE]
    generalize hq1 : 9091 * 9600 / (9600 + t1) = q1
    generalize hq2 : 9091 * 9600 / (9600 + t2) = q2
    rw [hq1, hq2] at hdiv
    split_ifs <;> omega

/-- C6: for every elapsed time the two weights sum to exactly 10000, the
token weight starts at `START_WEIGHT = 9091` at elapsed 0, never leaves
`[1, 10000]`, and is non-increasing in elapsed time. -/
theorem weights_sum_start_monotone :
    (∀ t, (LBP.getCurrentWeights t).1 + (LBP.getCurrentWeights t).2 = 10000
        ∧ 1 ≤ (LBP.getCurrentWeights t).1 ∧ (LBP.getCurrentWeights t).1 ≤ 10000)
    ∧ (LBP.getCurrentWeights 0).1 = LBP.START_WEIGHT
    ∧ ∀ t1 t2, t1 ≤ t2 → (LBP.getCurrentWeights t2).1 ≤ (LBP.getCurrentWeights t1).1 :=
  ⟨getCurrentWeights_bounds, rfl, fun _ _ h => getCurrentWeights_antitone h⟩

/-- Witness for C6 at concrete elapsed times. -/
theorem weights_sum_start_monotone_witness :
    (LBP.getCurrentWeights 86400).1 + (LBP.getCurrentWeights 86400).2 = 10000
    ∧ (LBP.getCurrentWeights 86400).1 ≤ (LBP.getCurrentWeights 3600).1 :=
  ⟨(weights_sum_start_monotone.1 86400).1,
   weights_sum_start_monotone.2.2 3600 86400 (by norm_num)⟩

/-! ## The mint solve (C1) -/

/-- The linear-division branch of `calculateBctAmount` is taken on every
input: the constructor enforces `basePrice > 0`, and then
`b * PRECISION = basePrice * PRECISION + (slope * supply / PRECISION) * PRECISION`
always exceeds `a * supply = (slope / 2) * supply`, so the guard
`b * PRECISION > a * currentSupply` holds and the quadratic closed-form
branch is unreachable. -/
theorem calculateBctAmount_always_linear (c : CurveState) (e : Nat)
    (hbp : 1 ≤ c.basePrice) :
    LinearBondingCurve.calculateBctAmount c e =
      if e = 0 then 0
      else e * PRECISION / (c.basePrice + c.slope * c.totalSupply / PRECISION) := by
  have hP : PRECISION = 1000000000000000000 := by norm_num [PRECISION]
  have ha : c.slope / 2 * c.totalSupply ≤ c.slope * c.totalSupply :=
    Nat.mul_le_mul_right _ (Nat.div_le_self _ _)
  have key : c.slope / 2 * c.totalSupply
      < (c.basePrice + c.slope * c.totalSupply / PRECISION) * PRECISION := by
    have hexp : (c.basePrice + c.slope * c.totalSupply / PRECISION) * PRECISION
        = c.basePrice * PRECISION + c.slope * c.totalSupply / PRECISION * PRECISION := by
      ring
    rw [hexp, hP] at *
    omega
  simp only [LinearBondingCurve.calculateBctAmount]
  by_cases he : e = 0
  · rw [if_pos he, if_pos he]
  · rw [if_neg he, if_neg he, if_pos (Or.inr key)]

/-- C1: the claimed quadratic solve never executes.  For every curve with a
positive base price `calculateBctAmount` returns the linear division
`fundingIn * 1e18 / b`; at the failing input (`basePrice = 1`,
`slope = 2e18`, supply 0, `fundingIn = 1e18`) the code mints `1e36` units,
although the amount whose price-curve integral matches `1e18` is
`1e18 - 1`, and the integral of the actually minted amount is
`1e18 + 1e54` — far beyond the claimed ±1-unit rounding. -/
theorem calculateBctAmount_linear_always_and_integral_mismatch :
    (∀ c e, 1 ≤ c.basePrice →
        LinearBondingCurve.calculateBctAmount c e =
          if e = 0 then 0
          else e * PRECISION / (c.basePrice + c.slope * c.totalSupply / PRECISION))
    ∧ LinearBondingCurve.calculateBctAmount c1bad (10 ^ 18) = 10 ^ 36
    ∧ specMintCost 1 (2 * 10 ^ 18) 0 (10 ^ 18 - 1) ≤ 10 ^ 18
    ∧ 10 ^ 18 < specMintCost 1 (2 * 10 ^ 18) 0 (10 ^ 18)
    ∧ specMintCost 1 (2 * 10 ^ 18) 0
        (LinearBondingCurve.calculateBctAmount c1bad (10 ^ 18)) = 10 ^ 18 + 10 ^ 54 :=
  ⟨fun c e h => calculateBctAmount_always_linear c e h,
   by decide, by decide, by decide, by decide⟩

/-- Witness for C1 at the failing input. -/
theorem calculateBctAmount_linear_always_witness :
    LinearBondingCurve.calculateBctAmount c1bad (10 ^ 18)
      = 10 ^ 18 * PRECISION / (c1bad.basePrice + c1bad.slope * c1bad.totalSupply / PRECISION) := by
  have h := calculateBctAmount_linear_always_and_integral_mismatch.1 c1bad (10 ^ 18)
    (by decide)
  rw [if_neg (by norm_num)] at h
  exact h

/-! ## Swap failure checks and reserve updates (C4, C7) -/

/-- C4 (counterexample): at elapsed 86400 a buy of 1e18 funding against
reserves of 1e18 funding / 10000e18 tokens computes a zero output, yet the
swap succeeds: it reports output 0, takes the full 1e18 into the funding
reserve and leaves the token reserve untouched — the claimed zero-output
failure does not exist on the buy path. -/
theorem swap_buy_zero_output_succeeds :
    (LBP.swap pX curve0 3 (10 ^ 18) 0 true 86400).map
        (fun r => (r.2.2, r.1.ethAmount, r.1.positionTokenAmount))
      = some (0, 2 * 10 ^ 18, 10000 * 10 ^ 18) := by
  rfl

/-- C4 (amended): a sell fails whenever the computed output is zero or
exceeds the funding reserve, and a buy fails whenever the computed output
exceeds the token reserve; the zero-output check exists only on the sell
path. -/
theorem swap_output_checks :
    ∀ p c caller msgValue amountIn elapsed,
      (p.positionTokenAmount <
          LBP.calculateSwapAmount p.ethAmount p.positionTokenAmount
            (LBP.getCurrentWeights elapsed).2 (LBP.getCurrentWeights elapsed).1
            (msgValue - msgValue * p.swapFee / 10000) →
        LBP.swap p c caller msgValue amountIn true elapsed = none)
      ∧ (LBP.calculateSwapAmount p.positionTokenAmount p.ethAmount
            (LBP.getCurrentWeights elapsed).1 (LBP.getCurrentWeights elapsed).2
            (amountIn - amountIn * p.swapFee / 10000) = 0 →
        LBP.swap p c caller msgValue amountIn false elapsed = none)
      ∧ (p.ethAmount <
          LBP.calculateSwapAmount p.positionTokenAmount p.ethAmount
            (LBP.getCurrentWeights elapsed).1 (LBP.getCurrentWeights elapsed).2
            (amountIn - amountIn * p.swapFee / 10000) →
        LBP.swap p c caller msgValue amountIn false elapsed = none) := by
  intro p c caller msgValue amountIn elapsed
  refine ⟨?_, ?_, ?_⟩ <;> intro h <;> simp only [LBP.swap] <;>
    split_ifs <;> first | rfl | omega | simp_all

/-- Witness for C4 at a concrete state where a sell computes zero output. -/
theorem swap_output_checks_witness :
    LBP.swap pX curve0 3 0 7 false 0 = none := by
  have h := (swap_output_checks pX curve0 3 0 7 0).2.1 (by decide)
  exact h

/-- C7: on every successful swap the input reserve grows by the full input
amount (fee included) and the output reserve shrinks by exactly the
computed output amount, with no underflow (stated additively).  On a buy
the reported output is the token amount leaving the reserve; on a sell the
funding leaving the reserve is the computed swap amount (the reported value
is the BCT minted from it), and the curve state is untouched on a buy. -/
theorem swap_reserve_updates :
    ∀ p c caller msgValue amountIn elapsed p1 c1 out,
      (LBP.swap p c caller msgValue amountIn true elapsed = some (p1, c1, out) →
        p1.ethAmount = p.ethAmount + msgValue
        ∧ p1.positionTokenAmount + out = p.positionTokenAmount
        ∧ out = LBP.calculateSwapAmount p.ethAmount p.positionTokenAmount
            (LBP.getCurrentWeights elapsed).2 (LBP.getCurrentWeights elapsed).1
            (msgValue - msgValue * p.swapFee / 10000)
        ∧ c1 = c)
      ∧ (LBP.swap p c caller msgValue amountIn false elapsed = some (p1, c1, out) →
        p1.positionTokenAmount = p.positionTokenAmount + amountIn
        ∧ p1.ethAmount + LBP.calculateSwapAmount p.positionTokenAmount p.ethAmount
            (LBP.getCurrentWeights elapsed).1 (LBP.getCurrentWeights elapsed).2
            (amountIn - amountIn * p.swapFee / 10000) = p.ethAmount) := by
  intro p c caller msgValue amountIn elapsed p1 c1 out
  constructor
  · intro h
    simp only [LBP.swap, reduceIte] at h
    split_ifs at h with h1 h2 h3 h4 h5
    rcases hu : PositionToken.update p.token p.addr caller
        (LBP.calculateSwapAmount p.ethAmount p.positionTokenAmount
          (LBP.getCurrentWeights elapsed).2 (LBP.getCurrentWeights elapsed).1
          (msgValue - msgValue * p.swapFee / 10000)) with _ | tok <;>
      rw [hu] at h
    · exact absurd h (by simp)
    · simp only [Option.some.injEq, Prod.mk.injEq] at h
      obtain ⟨hp1, hc1, hout⟩ := h
      have e1 : p1.ethAmount = p.ethAmount + msgValue := by rw [← hp1]
      have e2 : p1.positionTokenAmount
          = p.positionTokenAmount - LBP.calculateSwapAmount p.ethAmount p.positionTokenAmount
              (LBP.getCurrentWeights elapsed).2 (LBP.getCurrentWeights elapsed).1
              (msgValue - msgValue * p.swapFee / 10000) := by rw [← hp1]
      refine ⟨e1, ?_, hout.symm, hc1.symm⟩
      rw [e2, ← hout]
      omega
  · intro h
    simp only [LBP.swap, reduceIte] at h
    split_ifs at h with h1 h2 h3 h4 h5
    all_goals try exact h4.elim
    rcases hu : PositionToken.update p.token caller p.addr amountIn with _ | tok <;>
      rw [hu] at h
    · exact absurd h (by simp)
    · rcases hm : LinearBondingCurve.mintBctFor c caller
          (LBP.calculateSwapAmount p.positionTokenAmount p.ethAmount
            (LBP.getCurrentWeights elapsed).1 (LBP.getCurrentWeights elapsed).2
            (amountIn - amountIn * p.swapFee / 10000)) with _ | cr <;>
        simp only [hm] at h
      · exact absurd h (by simp)
      · obtain ⟨cnew, bct⟩ := cr
        simp only [Option.some.injEq, Prod.mk.injEq] at h
        obtain ⟨hp1, hc1, hout⟩ := h
        have e1 : p1.positionTokenAmount = p.positionTokenAmount + amountIn := by
          rw [← hp1]
        have e2 : p1.ethAmount
            = p.ethAmount - LBP.calculateSwapAmount p.positionTokenAmount p.ethAmount
                (LBP.getCurrentWeights elapsed).1 (LBP.getCurrentWeights elapsed).2
                (amountIn - amountIn * p.swapFee / 10000) := by rw [← hp1]
        refine ⟨e1, ?_⟩
        rw [e2]
        omega

/-- Witness for C7 at a concrete buy and a concrete sell. -/
theorem swap_reserve_updates_witness :
    c7buyResult.1.ethAmount = pX.ethAmount + 10 ^ 18
    ∧ c7sellResult.1.positionTokenAmount = pY.positionTokenAmount + 1000 * 10 ^ 18 := by
  constructor
  · exact ((swap_reserve_updates pX curve0 3 (10 ^ 18) 0 0
      c7buyResult.1 c7buyResult.2.1 c7buyResult.2.2).1 (by rfl)).1
  · exact ((swap_reserve_updates pY curve0 3 0 (1000 * 10 ^ 18) 43200
      c7sellResult.1 c7sellResult.2.1 c7sellResult.2.2).2 (by rfl)).1

/-! ## Emergency exit (C9) -/

/-- C9: `emergencyExit` succeeds exactly for the orchestrator on a pool
that is neither settled nor liquidated; it marks the pool settled, zeroes
the funding reserve and hands it to the orchestrator (the returned amount),
leaving the token reserve, the position-token state and the bonding curve
(including its bonus pool) untouched. -/
theorem emergencyExit_frame :
    ∀ p c caller out,
      (LBP.emergencyExit p c caller = some out →
        caller = p.orchestrator ∧ p.settled = false ∧ p.liquidated = false
        ∧ out.1.settled = true ∧ out.1.liquidated = p.liquidated
        ∧ out.1.ethAmount = 0
        ∧ out.1.positionTokenAmount = p.positionTokenAmount
        ∧ out.1.token = p.token
        ∧ out.2.1 = c
        ∧ out.2.2 = p.ethAmount)
      ∧ (caller = p.orchestrator → p.settled = false → p.liquidated = false →
          LBP.emergencyExit p c caller =
            some ({ p with settled := true, ethAmount := 0 }, c, p.ethAmount)) := by
  intro p c caller out
  constructor
  · intro h
    simp only [LBP.emergencyExit] at h
    split_ifs at h with h1 h2 h3
    injection h with h4
    subst h4
    refine ⟨by omega, by simpa using h2, by simpa using h3, rfl, rfl, rfl, rfl,
      rfl, rfl, rfl⟩
  · intro h1 h2 h3
    simp only [LBP.emergencyExit]
    rw [if_neg (not_not_intro h1), if_neg (by simp [h2]), if_neg (by simp [h3])]

/-- Witness for C9 at a concrete pool. -/
theorem emergencyExit_frame_witness :
    LBP.emergencyExit pA curve0 9 =
      some ({ pA with settled := true, ethAmount := 0 }, curve0, pA.ethAmount) :=
  (emergencyExit_frame pA curve0 9
    ({ pA with settled := true, ethAmount := 0 }, curve0, pA.ethAmount)).2 rfl rfl rfl

/-! ## Position creation (C10) -/

/-- C10: `createPosition` checks only the funding range, a positive token
amount and the round's end time — never the round's `settled` flag — so for
any round (in particular one already settled by `settleRoundEarly`, whose
`endTime` is unchanged) a call before `endTime` succeeds and appends the
new pool to the round's list, leaving every other round field (including
`settled`) as it was. -/
theorem createPosition_ignores_settled :
    ∀ r orchAddr poolAddr now msgValue tokenAmount,
      orchAddr ≠ 0 →
      RoundOrchestrator.MIN_POSITION_ETH ≤ msgValue →
      msgValue ≤ RoundOrchestrator.MAX_POSITION_ETH →
      0 < tokenAmount → now < r.endTime →
      ∃ p, RoundOrchestrator.createPosition r orchAddr poolAddr now msgValue tokenAmount
            = some { r with lbps := r.lbps ++ [p] }
        ∧ p.settled = false ∧ p.liquidated = false
        ∧ p.addr = poolAddr ∧ p.positionTokenAmount = tokenAmount
        ∧ p.ethAmount = msgValue := by
  intro r orchAddr poolAddr now msgValue tokenAmount horch hmin hmax hta hnow
  have hta0 : ¬tokenAmount = 0 := by omega
  by_cases hpool : poolAddr = 0 <;>
    simp [RoundOrchestrator.createPosition, hmin, hmax, hnow, hta0, hta, horch, hpool,
      PositionToken.update, PositionToken.erc20Update]

/-- Witness for C10: creating a position in a round whose settled flag is
already true succeeds and appends a third pool. -/
theorem createPosition_ignores_settled_witness :
    (RoundOrchestrator.createPosition rABsettled 9 7 10 (10 ^ 18) (10000 * 10 ^ 18)).map
        (fun r1 => (r1.lbps.length, r1.settled))
      = some (3, true) := by
  obtain ⟨p, hp, -⟩ := createPosition_ignores_settled rABsettled 9 7 10 (10 ^ 18)
    (10000 * 10 ^ 18) (by decide) (by decide) (by decide) (by decide) (by decide)
  rw [hp]
  rfl

/-! ## Burn semantics (C5) -/

/-- C5 (counterexample): after minting 1000e18 BCT for 1e18 funding and
depositing a 1e18 bonus, burning all 1000e18 tokens pays out 1.5e18 —
more than the 1e18 of bonus-pool-external balance — because the code
checks the payout against the whole contract balance (2e18), bonus pool
included.  The claim says this burn must fail. -/
theorem burnBct_spends_bonus_pool :
    c5trace = some (10 ^ 21, 2 * 10 ^ 18, 10 ^ 18, 15 * 10 ^ 17)
    ∧ 2 * 10 ^ 18 - 10 ^ 18 < 15 * 10 ^ 17 := by
  constructor
  · rfl
  · norm_num

/-- C5 (amended): every successful `burnBct` implies a positive amount, a
sufficient caller balance, a payout equal to the burn amount times the
arithmetic mean of the price before and after divided by 1e18, a positive
payout, and a payout within the contract's **total** funding balance
(bonus pool included); the supply, caller balance and contract balance
shrink accordingly. -/
theorem burnBct_characterization :
    ∀ c caller amt c1 out, LinearBondingCurve.burnBct c caller amt = some (c1, out) →
      0 < amt ∧ amt ≤ c.balances caller ∧ amt ≤ c.totalSupply
      ∧ out = amt * ((c.basePrice + c.slope * c.totalSupply / PRECISION
            + (c.basePrice + c.slope * (c.totalSupply - amt) / PRECISION)) / 2) / PRECISION
      ∧ 0 < out ∧ out ≤ c.ethBalance
      ∧ c1.totalSupply = c.totalSupply - amt
      ∧ c1.ethBalance = c.ethBalance - out
      ∧ c1.balances caller = c.balances caller - amt := by
  intro c caller amt c1 out h
  simp only [LinearBondingCurve.burnBct, LinearBondingCurve.calculateEthAmount] at h
  split_ifs at h with h1 h2 h3
  dsimp only at h
  split_ifs at h with h4 h5
  injection h with h6
  injection h6 with h7 h8
  subst h8
  refine ⟨by omega, by omega, h3, rfl, Nat.pos_of_ne_zero h4, h5, ?_, ?_, ?_⟩
  · rw [← h7]
  · rw [← h7]
  · rw [← h7]
    simp

/-- Witness for C5: a concrete successful burn paying the average price. -/
theorem burnBct_characterization_witness :
    cWresult.2 = 10 ^ 21 * ((cW.basePrice + cW.slope * cW.totalSupply / PRECISION
        + (cW.basePrice + cW.slope * (cW.totalSupply - 10 ^ 21) / PRECISION)) / 2) / PRECISION :=
  (burnBct_characterization cW 5 (10 ^ 21) cWresult.1 cWresult.2 (by rfl)).2.2.2.1

/-! ## Holder registry (C8) -/

/-- C8 (counterexample): the position-token creation sequence (mint the full
supply to the orchestrator at address 2, then transfer it into the pool at
address 1) leaves the holder list `[1]`: the pool itself IS tracked by the
creation transfer, while the excluded step is the initial mint — after
which the orchestrator holds balance 100 yet the list is empty. -/
theorem positionToken_creation_tracks_pool :
    c8trace = some ([1], [], 100) := by rfl

/-- Balance bookkeeping of a successful ERC20 `_update`: holders are
untouched, and any address with a positive balance afterwards either
already had one or is a nonzero destination of a positive transfer. -/
theorem erc20Update_some (t : TokenState) (f toA v : Nat) (t1 : TokenState)
    (h : PositionToken.erc20Update t f toA v = some t1) :
    t1.holders = t.holders
    ∧ ∀ a, 0 < t1.balances a → 0 < t.balances a ∨ (a = toA ∧ toA ≠ 0 ∧ 0 < v) := by
  simp only [PositionToken.erc20Update] at h
  split_ifs at h with h1 h2 h3 h4
  all_goals
    injection h with h5
  all_goals
    subst h5
  all_goals
    refine ⟨rfl, ?_⟩
  all_goals
    intro a ha
  · -- f = 0, toA = 0 : balances unchanged
    exact Or.inl ha
  · -- f = 0, toA ≠ 0
    by_cases hat : a = toA
    · subst hat
      simp at ha
      rcases Nat.eq_zero_or_pos (t.balances a) with hb | hb
      · right
        refine ⟨rfl, h2, ?_⟩
        omega
      · exact Or.inl hb
    · simp [hat] at ha
      exact Or.inl ha
  · -- f ≠ 0, v ≤ balances f, toA = 0
    by_cases haf : a = f
    · subst haf
      simp at ha
      exact Or.inl (by omega)
    · simp [haf] at ha
      exact Or.inl ha
  · -- f ≠ 0, v ≤ balances f, toA ≠ 0
    by_cases hat : a = toA
    · subst hat
      simp at ha
      by_cases haf : a = f
      · subst haf
        simp at ha
        exact Or.inl (by omega)
      · simp [haf] at ha
        rcases Nat.eq_zero_or_pos (t.balances a) with hb | hb
        · right
          refine ⟨rfl, h4, ?_⟩
          omega
        · exact Or.inl hb
    · simp [hat] at ha
      by_cases haf : a = f
      · subst haf
        simp at ha
        exact Or.inl (by omega)
      · simp [haf] at ha
        exact Or.inl ha

/-- C8 (amended): on every successful `_update` the holder list either
stays unchanged or gains exactly the destination (which was not yet
listed); it gains the destination exactly when the destination is a
nonzero address not yet listed, the amount is positive, and the step is
not the initial mint into an empty list — the pool address is NOT
special-cased, so the creation transfer lists the pool itself.  No entry
is ever removed, duplicate-freeness is preserved, and the
positive-balance-implies-listed invariant is preserved by every step other
than the initial mint. -/
theorem holder_registry_invariants :
    ∀ t f toA v t1, PositionToken.update t f toA v = some t1 →
      (t1.holders = t.holders ∨ (t1.holders = t.holders ++ [toA] ∧ toA ∉ t.holders))
      ∧ (t.holders.Nodup → t1.holders.Nodup)
      ∧ (toA ≠ 0 → toA ∉ t.holders → 0 < v → ¬(f = 0 ∧ t.holders = []) →
          t1.holders = t.holders ++ [toA])
      ∧ ((∀ a, 0 < t.balances a → a ∈ t.holders) → ¬(f = 0 ∧ t.holders = []) →
          ∀ a, 0 < t1.balances a → a ∈ t1.holders) := by
  intro t f toA v t1 h
  simp only [PositionToken.update] at h
  rcases he : PositionToken.erc20Update t f toA v with _ | t2
  · rw [he] at h
    exact absurd h (by simp)
  · rw [he] at h
    obtain ⟨hhold, hbal⟩ := erc20Update_some t f toA v t2 he
    split_ifs at h with hg
    · injection h with h5
      subst h5
      obtain ⟨hg1, hg2, hg3, hg4⟩ := hg
      refine ⟨Or.inr ⟨by rw [hhold], hg2⟩, ?_, ?_, ?_⟩
      · intro hnd
        have : t.holders ++ [toA] = (t2.holders ++ [toA] : List Nat) := by rw [hhold]
        rw [← this] at *
        simp [List.nodup_append, hnd, hg2]
      · intro _ _ _ _
        rw [hhold]
      · intro hinv _ a ha
        have ha2 : 0 < t2.balances a := ha
        rcases hbal a ha2 with hb | ⟨rfl, _, _⟩
        · have : a ∈ t.holders := hinv a hb
          simp [hhold, this]
        · simp [hhold]
    · injection h with h5
      subst h5
      refine ⟨Or.inl hhold, ?_, ?_, ?_⟩
      · intro hnd
        rw [hhold]
        exact hnd
      · intro h1 h2 h3 h4
        exact absurd ⟨h1, h2, h3, h4⟩ hg
      · intro hinv hst a ha
        rcases hbal a ha with hb | ⟨rfl, h0, hv⟩
        · rw [hhold]
          exact hinv a hb
        · rw [hhold]
          by_cases hmem : a ∈ t.holders
          · exact hmem
          · exact absurd ⟨h0, hmem, hv, hst⟩ hg

/-- Witness for C8: a transfer of 40 from address 2 to the unlisted
address 3 appends 3 to the holder list. -/
theorem holder_registry_invariants_witness : tWresult.holders = [7] ++ [3] :=
  (holder_registry_invariants tW 2 3 40 tWresult (by rfl)).2.2.1
    (by decide) (by decide) (by decide) (by decide)

/-! ## Settlement shares (C3) -/

/-- Adding `d` to the last element of a nonempty list raises its sum by `d`. -/
theorem sum_set_last_add :
    ∀ (l : List Nat) (d : Nat), l ≠ [] →
      (l.set (l.length - 1) (l.getD (l.length - 1) 0 + d)).sum = l.sum + d := by
  intro l
  induction l with
  | nil => simp
  | cons x t ih =>
    intro d _
    cases t with
    | nil => simp
    | cons y t2 =>
      have hstep := ih d (by simp)
      simp only [List.length_cons, Nat.add_sub_cancel] at hstep ⊢
      rw [List.set_cons_succ, List.getD_cons_succ, List.sum_cons, List.sum_cons, hstep]
      omega

/-- C3: on every successful `settleWinner` the returned winners are exactly
the holders other than the pool itself with a positive balance, each
non-last share is the floored `balance * 10000 / ownedSupply`, the last
winner's share additionally absorbs the remainder `10000 - Σ floors`, and
the shares sum to exactly 10000. -/
theorem settleWinner_shares :
    ∀ p c caller p1 c1 winners shares ethSent,
      LBP.settleWinner p c caller = some (p1, c1, winners, shares, ethSent) →
      winners = LBP.settleWinnerWinners p
      ∧ shares.length = winners.length
      ∧ shares.sum = 10000
      ∧ (∀ i, i + 1 < shares.length →
          shares[i]? = (winners.map (fun h2 => p.token.balances h2 * 10000 /
            (p.token.totalSupply - p.positionTokenAmount)))[i]?)
      ∧ shares[shares.length - 1]? = some
          ((winners.map (fun h2 => p.token.balances h2 * 10000 /
              (p.token.totalSupply - p.positionTokenAmount))).getD (shares.length - 1) 0
            + (10000 - (winners.map (fun h2 => p.token.balances h2 * 10000 /
              (p.token.totalSupply - p.positionTokenAmount))).sum)) := by
  intro p c caller p1 c1 winners shares ethSent h
  simp only [LBP.settleWinner] at h
  split_ifs at h with h1 h2 h3 h4 h5 h6 h7
  all_goals
    rcases hd : LinearBondingCurve.depositEth c p.ethAmount with _ | c2 <;>
      rw [hd] at h <;> dsimp only at h
  all_goals try exact Option.noConfusion h
  all_goals
    simp only [Option.some.injEq, Prod.mk.injEq] at h
  all_goals
    obtain ⟨hp1, hc1, hw, hs, he⟩ := h
  all_goals
    subst hw
  all_goals
    subst hs
  all_goals
    refine ⟨rfl, ?_, ?_, ?_, ?_⟩
  -- remainder-absorbing branch (Σ floors ≠ 10000)
  · simp
  · have hne : (LBP.settleWinnerWinners p).map
        (fun h2 => p.token.balances h2 * 10000 /
          (p.token.totalSupply - p.positionTokenAmount)) ≠ [] := by
      simp only [ne_eq, List.map_eq_nil_iff]
      intro hcon
      rw [hcon] at h5
      exact h5 rfl
    rw [sum_set_last_add _ _ hne]
    have hsum : ((LBP.settleWinnerWinners p).map
        (fun h2 => p.token.balances h2 * 10000 /
          (p.token.totalSupply - p.positionTokenAmount))).sum ≤ 10000 := by omega
    omega
  · intro i hi
    simp only [List.length_set] at hi
    exact List.getElem?_set_ne (by omega)
  · have hlen : 0 < ((LBP.settleWinnerWinners p).map
        (fun h2 => p.token.balances h2 * 10000 /
          (p.token.totalSupply - p.positionTokenAmount))).length := by
      simp only [List.length_map]
      omega
    simp only [List.length_set]
    exact List.getElem?_set_self (by omega)
  -- exact branch (Σ floors = 10000)
  · simp
  · simp only [not_not] at h7
    exact h7
  · intro i hi
    rfl
  · simp only [not_not] at h7
    have hlen : 0 < ((LBP.settleWinnerWinners p).map
        (fun h2 => p.token.balances h2 * 10000 /
          (p.token.totalSupply - p.positionTokenAmount))).length := by
      simp only [List.length_map]
      omega
    rw [List.getElem?_eq_getElem (by omega), List.getD_eq_getElem _ _ (by omega), h7]
    simp

/-- Witness for C3: the two winners 5 and 6 (balances 3 and 4, owned supply
7) receive floored shares 4285 and 5714, and the last absorbs the missing
basis point. -/
theorem settleWinner_shares_witness :
    c3result.2.2.2.1.sum = 10000 :=
  (settleWinner_shares pC3 curve0 9 c3result.1 c3result.2.1 c3result.2.2.1
    c3result.2.2.2.1 c3result.2.2.2.2 (by rfl)).2.2.1

/-! ## Settlement force-liquidation (C2) -/

/-- Effect of a successful `forceLiquidate`: the pool was neither settled
nor liquidated, held positive funding, and the result is the liquidated
pool with a zeroed reserve next to the curve credited through
`depositEth`. -/
theorem forceLiquidate_some (p : LBPState) (c : CurveState) (p1 : LBPState)
    (c1 : CurveState) (h : LBP.forceLiquidate p c = some (p1, c1)) :
    p.settled = false ∧ p.liquidated = false ∧ 0 < p.ethAmount
    ∧ p1 = { p with liquidated := true, ethAmount := 0 }
    ∧ c1 = { c with
               liquidationBonusPool := c.liquidationBonusPool + p.ethAmount
               ethBalance := c.ethBalance + p.ethAmount } := by
  simp only [LBP.forceLiquidate, LinearBondingCurve.depositEth] at h
  split_ifs at h with h1 h2 h3
  dsimp only at h
  simp only [Option.some.injEq, Prod.mk.injEq] at h
  obtain ⟨hp1, hc1⟩ := h
  exact ⟨by simpa using h2, by simpa using h1, by omega, hp1.symm, hc1.symm⟩

/-- Pointwise description of the settlement loop on non-winning pools. -/
theorem settleLoop_nonwinner (orch w : Nat) :
    ∀ (pools : List LBPState) (c : CurveState) pools1 c1,
      RoundOrchestrator.settleLoop orch w pools c = some (pools1, c1) →
      ∀ (i : Nat) (p : LBPState), pools[i]? = some p → p.addr ≠ w →
        p.liquidated = false →
        pools1[i]? = some { p with liquidated := true, ethAmount := 0 } := by
  intro pools
  induction pools with
  | nil =>
    intro c pools1 c1 h i p hp
    simp at hp
  | cons p0 rest ih =>
    intro c pools1 c1 h i p hp hw hl
    simp only [RoundOrchestrator.settleLoop] at h
    rcases hs : RoundOrchestrator.settleStep orch w p0 c with _ | ⟨p1, c2⟩ <;>
      rw [hs] at h <;> dsimp only at h
    · exact Option.noConfusion h
    · rcases hrest : RoundOrchestrator.settleLoop orch w rest c2 with _ | ⟨ps, c3⟩ <;>
        rw [hrest] at h <;> dsimp only at h
      · exact Option.noConfusion h
      · simp only [Option.some.injEq, Prod.mk.injEq] at h
        obtain ⟨hp1, _hc1⟩ := h
        subst hp1
        cases i with
        | zero =>
          simp only [List.getElem?_cons_zero, Option.some.injEq] at hp
          subst hp
          simp only [RoundOrchestrator.settleStep, if_neg hw, hl] at hs
          rw [if_pos (by simp)] at hs
          obtain ⟨-, -, -, hpeq, -⟩ := forceLiquidate_some p0 c p1 c2 hs
          simp only [List.getElem?_cons_zero, Option.some.injEq]
          exact hpeq
        | succ n =>
          simp only [List.getElem?_cons_succ] at hp ⊢
          exact ih c2 ps c3 hrest n p hp hw hl

/-- C2: `forceLiquidate` (modelled from the spec, absent from the sources)
deposits the entire funding reserve into the reward curve's bonus pool,
zeroes it and marks the pool Liquidated; it agrees with `liquidatePool`
whenever the latter succeeds (same effect, price precondition dropped);
and every successful `settleRound` / `settleRoundEarly` maps each
non-winning, not-already-liquidated pool of the round to exactly that
force-liquidated state. -/
theorem settlement_forceLiquidates_nonwinners :
    (∀ p c, p.settled = false → p.liquidated = false → 0 < p.ethAmount →
        LBP.forceLiquidate p c =
          some ({ p with liquidated := true, ethAmount := 0 },
            { c with
                liquidationBonusPool := c.liquidationBonusPool + p.ethAmount
                ethBalance := c.ethBalance + p.ethAmount }))
    ∧ (∀ p c elapsed out, LBP.liquidatePool p c elapsed = some out →
        LBP.forceLiquidate p c = some out)
    ∧ (∀ r orch now r1,
        (RoundOrchestrator.settleRound r now orch = some r1
          ∨ RoundOrchestrator.settleRoundEarly r orch = some r1) →
        ∀ (i : Nat) (p : LBPState), r.lbps[i]? = some p → p.addr ≠ r1.winnerLbp →
          p.liquidated = false →
          r1.lbps[i]? = some { p with liquidated := true, ethAmount := 0 }) := by
  refine ⟨?_, ?_, ?_⟩
  · intro p c h1 h2 h3
    simp only [LBP.forceLiquidate, LinearBondingCurve.depositEth, h1, h2]
    rw [if_neg (by simp), if_neg (by simp), if_neg (by omega)]
  · intro p c elapsed out h
    simp only [LBP.liquidatePool] at h
    split_ifs at h with h1 h2 h3 h4
    simp only [LBP.forceLiquidate]
    rw [if_neg h1, if_neg h2]
    exact h
  · intro r orch now r1 hdis
    have hint : RoundOrchestrator.settleRoundInternal r orch = some r1 := by
      rcases hdis with h | h
      · simp only [RoundOrchestrator.settleRound] at h
        split_ifs at h
        exact h
      · simp only [RoundOrchestrator.settleRoundEarly] at h
        split_ifs at h
        exact h
    simp only [RoundOrchestrator.settleRoundInternal] at hint
    rcases hsel : RoundOrchestrator.selectWinner r.lbps (0, 0) with _ | ⟨hi, w⟩ <;>
      rw [hsel] at hint <;> dsimp only at hint
    · exact Option.noConfusion hint
    · rcases hloop : RoundOrchestrator.settleLoop orch w r.lbps r.bondingCurve
          with _ | ⟨ps, cf⟩ <;> rw [hloop] at hint <;> dsimp only at hint
      · exact Option.noConfusion hint
      · injection hint with hr1
        subst hr1
        intro i p hp hw2 hl
        exact settleLoop_nonwinner orch w r.lbps r.bondingCurve ps cf hloop i p hp hw2 hl

/-- Witness for C2 on a concrete two-pool round: pool 2 (owned supply 0,
not liquidated) ends the settlement liquidated with a zeroed reserve. -/
theorem settlement_forceLiquidates_nonwinners_witness :
    rABresult.lbps[1]? = some { pB with liquidated := true, ethAmount := 0 } :=
  settlement_forceLiquidates_nonwinners.2.2 rAB 9 0 rABresult
    (Or.inr (by rfl)) 1 pB (by rfl) (by decide) (by rfl)
